import Mathlib

/-!
Verification of the NebulaAudio wrapper (src/index.js): the swing-fade
volume transition (`setVolume`, the `src` setter) and the indexed
event-listener registry (`on` / `off`).

Modelling conventions:
* JS numbers appearing in control flow (volume percent, durations,
  intervals) are modelled as `ℚ`; `Math.floor` is `Int.floor`.
* The volume values written during a fade involve `Math.cos`, modelled
  over `ℝ` with `Real.cos`.
* A promise outcome is a value: `SetVolumeResult.rejected msg` models
  `return Promise.reject(new Error(msg))` inside the `async` function
  (an async function never throws synchronously; the returned promise
  adopts the rejection).
* The `setInterval` loop of `setVolume` is a step function on a state
  `(tick, resolved, writes)`; one application of `fadeStep` is one firing
  of the interval callback, and `resolved = true` models
  `clearInterval` + `resolve()` (after which no further callback fires).
-/

namespace NebulaAudio

/-- Outcome of a call to `setVolume` (src/index.js lines 59-90):
either the promise is rejected (out-of-range volume), or it resolves
immediately after a single synchronous volume write (the short-circuit
path), or a periodic timer is started carrying the captured
`originalVolume`, `delta` and tick count `ticks = ⌊fadeMs / intervalMs⌋`. -/
inductive SetVolumeResult where
  | rejected (msg : String)
  | immediate (written : ℚ)
  | fade (startVolume : ℚ) (delta : ℚ) (ticks : ℤ)
  deriving DecidableEq, Repr

/-- Control flow of `async setVolume(newVolume, fadeMs = 1500, intervalMs = 13)`
(src/index.js lines 59-79), translated guard by guard:
`if (newVolume < 0 || newVolume > 100) return Promise.reject(...)`;
`newVolume /= 100`; `delta = newVolume - originalVolume`;
`if (!delta || !fadeMs || !intervalMs) { volume = newVolume; resolve }`;
otherwise `ticks = Math.floor(fadeMs / intervalMs)` and the interval
timer is started. -/
def setVolume (currentVolume newVolume fadeMs intervalMs : ℚ) : SetVolumeResult :=
  if newVolume < 0 ∨ 100 < newVolume then
    .rejected "New volume is outside of allowed range (0-100)"
  else
    let normalized := newVolume / 100
    let delta := normalized - currentVolume
    if delta = 0 ∨ fadeMs = 0 ∨ intervalMs = 0 then
      .immediate normalized
    else
      .fade currentVolume delta ⌊fadeMs / intervalMs⌋

/-- The volume value written by the interval callback at a given tick
(src/index.js line 81):
`originalVolume + ((0.5 - Math.cos((tick / ticks) * Math.PI) / 2) * delta)`.
Division by zero follows Lean's `x / 0 = 0` convention; every claim about
write values has `ticks ≥ 1`, where the model and the JS float expression
denote the same real arithmetic. -/
noncomputable def fadeWrite (startVolume delta : ℝ) (ticks : ℤ) (tick : ℕ) : ℝ :=
  startVolume + (0.5 - Real.cos ((tick / (ticks : ℝ)) * Real.pi) / 2) * delta

/-- State of the `setInterval` loop in `setVolume`: the `tick` counter
(initialised to 1), whether `clearInterval`/`resolve` has run, and the
sequence of volume writes performed so far. -/
structure FadeLoopState where
  tick : ℕ
  resolved : Bool
  writes : List ℝ

/-- One firing of the interval callback (src/index.js lines 80-88): if the
timer was already cleared nothing happens; otherwise the callback writes
`fadeWrite ... tick`, increments `tick`, and when the incremented tick
equals `ticks + 1` it clears the interval and resolves the promise. -/
noncomputable def fadeStep (startVolume delta : ℝ) (ticks : ℤ)
    (s : FadeLoopState) : FadeLoopState :=
  if s.resolved then s
  else
    let writes := s.writes ++ [fadeWrite startVolume delta ticks s.tick]
    if (s.tick : ℤ) + 1 = ticks + 1 then
      ⟨s.tick + 1, true, writes⟩
    else
      ⟨s.tick + 1, false, writes⟩

/-- The fade loop after `k` firings of the interval callback, starting
from `tick = 1` (src/index.js line 77). -/
noncomputable def fadeRun (startVolume delta : ℝ) (ticks : ℤ) : ℕ → FadeLoopState
  | 0 => ⟨1, false, []⟩
  | k + 1 => fadeStep startVolume delta ticks (fadeRun startVolume delta ticks k)

/-- The writes performed by the first `k` callback firings: the callback
at firing `i + 1` writes the volume for tick `i + 1`. -/
noncomputable def fadeWritesUpTo (startVolume delta : ℝ) (ticks : ℤ) (k : ℕ) : List ℝ :=
  (List.range k).map (fun i => fadeWrite startVolume delta ticks (i + 1))

/-- The volume writes a `setVolume` outcome performs within `k` timer
firings: a rejected call writes nothing, the short-circuit path performs
its single synchronous write, and a started fade performs the writes of
its timer loop. -/
noncomputable def setVolumeWrites (r : SetVolumeResult) (k : ℕ) : List ℝ :=
  match r with
  | .rejected _ => []
  | .immediate written => [(written : ℝ)]
  | .fade startVolume delta ticks => (fadeRun startVolume delta ticks k).writes

/-- Whether a `setVolume` outcome started an interval timer. -/
def startsTimer : SetVolumeResult → Bool
  | .fade _ _ _ => true
  | _ => false

/-- Strict betweenness of `x` and the endpoints `a`, `b` (in either
order), used for the first write of a fade. -/
def strictlyBetween (a b x : ℝ) : Prop :=
  (a < x ∧ x < b) ∨ (b < x ∧ x < a)

/-!
Event-listener registry (src/index.js lines 104-136).

`this._eventHandlers` maps an event name to an array whose entries are
either a live handler or `null` (a tombstone). It is modelled as a total
function `String → List (Option H)`: `on` reads
`this._eventHandlers[event] || []` and `off` early-returns on
`!eventHandlers || !eventHandlers.length`, so an absent key and an empty
array are indistinguishable through the code's operations. Array holes
(created by an out-of-range index assignment) and explicit `null`
entries are both `none`: the only reads that could tell them apart are
`removeEventListener(event, null | undefined)` — a no-op on the
primitive either way — and `forEach`, which skips holes but performs no
primitive-visible work on `null` entries either.
-/

/-- A call the registry forwards to the underlying `HTMLAudioElement`:
`addEventListener` always receives the just-pushed live handler;
`removeEventListener` receives whatever `eventHandlers[i]` held, which
may be `none` (JS `null`/`undefined`, a primitive no-op). -/
inductive PrimAction (H : Type) where
  | add (event : String) (handler : H)
  | remove (event : String) (handler : Option H)
  deriving DecidableEq, Repr

/-- Whether a primitive call actually detaches a listener:
`removeEventListener` with `null`/`undefined` matches nothing. -/
def PrimAction.effective {H : Type} : PrimAction H → Bool
  | .remove _ (some _) => true
  | _ => false

/-- The listener registry: event name to array of entries. -/
def Registry (H : Type) : Type := String → List (Option H)

/-- JS assignment `arr[i] = v`: in range it overwrites the slot; past the
end it extends the array to length `i + 1`, the skipped slots becoming
holes (modelled as `none`). -/
def setExtend {H : Type} (l : List (Option H)) (i : ℕ) (v : Option H) :
    List (Option H) :=
  if i < l.length then l.set i v
  else l ++ List.replicate (i - l.length) none ++ [v]

/-- The `on(event, handler)` method (src/index.js lines 104-110): read the
event's array (or `[]`), push the handler, call
`addEventListener(event, eventHandlers[eventHandlers.length - 1])`,
store the array back, and return `eventHandlers.length - 1`. Result:
(new registry, primitive calls, returned index). -/
def onListener {H : Type} (reg : Registry H) (event : String) (handler : H) :
    Registry H × List (PrimAction H) × ℕ :=
  let eventHandlers := reg event ++ [some handler]
  (Function.update reg event eventHandlers,
   [.add event handler],
   eventHandlers.length - 1)

/-- The `off(event, handlerIndex)` method (src/index.js lines 119-136):
early return if the event's array is missing or empty; with a
`handlerIndex`, call `removeEventListener(event, eventHandlers[handlerIndex])`
and assign `eventHandlers[handlerIndex] = null` (JS assignment semantics,
so an out-of-range index extends the array); without one, `forEach` over
the array calling `removeEventListener` on each entry and nulling its
slot. Result: (new registry, primitive calls). -/
def off {H : Type} (reg : Registry H) (event : String)
    (handlerIndex : Option ℕ) : Registry H × List (PrimAction H) :=
  let eventHandlers := reg event
  if eventHandlers.length = 0 then (reg, [])
  else
    match handlerIndex with
    | some i =>
        (Function.update reg event (setExtend eventHandlers i none),
         [.remove event (eventHandlers.getD i none)])
    | none =>
        (Function.update reg event (eventHandlers.map (fun _ => none)),
         eventHandlers.map (fun entry => .remove event entry))

/-- A registry operation: one `on` or `off` call. -/
inductive RegOp (H : Type) where
  | onOp (event : String) (handler : H)
  | offOp (event : String) (handlerIndex : Option ℕ)

/-- Apply one registry operation to the registry state. -/
def applyRegOp {H : Type} (reg : Registry H) : RegOp H → Registry H
  | .onOp event handler => (onListener reg event handler).1
  | .offOp event handlerIndex => (off reg event handlerIndex).1

/-- Run a finite sequence of registry operations. -/
def runRegOps {H : Type} (reg : Registry H) (ops : List (RegOp H)) : Registry H :=
  ops.foldl applyRegOp reg

/-!
The `src` setter (src/index.js lines 41-49), as the trace of steps it
performs on the player. `setVolume(0, 1500)` uses the default
`intervalMs = 13`; its promise is awaited (`.then`), and inside the
continuation the code reads `isPlaying`, assigns `_audio.src`,
conditionally calls `play()`, and starts `setVolume(100, 1500)` whose
promise nothing awaits.
-/

/-- One step of the `src` setter's behaviour. `fadeStart` records the
arguments of a `setVolume` call; `awaitCompletion` marks that the
preceding fade's promise is awaited before the trace continues. -/
inductive SrcStep where
  | fadeStart (targetPercent fadeMs intervalMs : ℚ)
  | awaitCompletion
  | readIsPlaying
  | setSource (url : String)
  | play
  deriving DecidableEq, Repr

/-- The `set src(url)` trace (src/index.js lines 41-49), parametrised by
the value `isPlaying` read inside the `.then` continuation: fade to 0
over 1500 ms, await it, read `isPlaying`, assign the new source, call
`play()` iff playback was active, then start the fade back to 100 —
with no `awaitCompletion` after it (fire-and-forget). -/
def setSrc (url : String) (isPlaying : Bool) : List SrcStep :=
  [.fadeStart 0 1500 13, .awaitCompletion, .readIsPlaying, .setSource url] ++
    (if isPlaying then [.play] else []) ++ [.fadeStart 100 1500 13]

/-!
Helper lemmas: the fade loop in closed form, and bounds on the
raised-cosine easing factor `0.5 - cos((t / N) * π) / 2`.
-/

/-- Appending one callback firing to the write list. -/
theorem fadeWritesUpTo_succ (startVolume delta : ℝ) (ticks : ℤ) (k : ℕ) :
    fadeWritesUpTo startVolume delta ticks (k + 1) =
      fadeWritesUpTo startVolume delta ticks k ++
        [fadeWrite startVolume delta ticks (k + 1)] := by
  simp [fadeWritesUpTo, List.range_succ]

/-- Closed form of the fade loop before and at resolution: through the
first `N` firings the tick counter is `k + 1`, the promise is resolved
exactly at firing `N`, and the writes are those of ticks `1..k`. -/
theorem fadeRun_eq_of_le (startVolume delta : ℝ) (N : ℕ) (h1 : 1 ≤ N) :
    ∀ k, k ≤ N → fadeRun startVolume delta (N : ℤ) k =
      ⟨k + 1, decide (k = N), fadeWritesUpTo startVolume delta (N : ℤ) k⟩ := by
  intro k
  induction k with
  | zero =>
      intro _
      have h0 : decide (0 = N) = false := by
        simp only [decide_eq_false_iff_not]
        omega
      simp [fadeRun, fadeWritesUpTo, h0]
  | succ k ih =>
      intro hk
      have hdk : decide (k = N) = false := by
        simp only [decide_eq_false_iff_not]
        omega
      have hrec := ih (by omega)
      show fadeStep startVolume delta (N : ℤ) (fadeRun startVolume delta (N : ℤ) k) = _
      rw [hrec, fadeWritesUpTo_succ]
      have hcond : (((k + 1 : ℕ) : ℤ) + 1 = (N : ℤ) + 1) ↔ (k + 1 = N) := by
        constructor
        · intro h
          omega
        · intro h
          omega
      by_cases hc : k + 1 = N
      · have hdc : decide (k + 1 = N) = true := by
          simp only [decide_eq_true_eq]
          exact hc
        simp [fadeStep, hdk, hdc, hcond, hc]
      · have hdc : decide (k + 1 = N) = false := by
          simp only [decide_eq_false_iff_not]
          exact hc
        simp only [fadeStep, hdk, Bool.false_eq_true, if_false, hdc]
        have hcf : ¬(((k + 1 : ℕ) : ℤ) + 1 = (N : ℤ) + 1) := by
          rw [hcond]
          exact hc
        rw [if_neg hcf]

/-- After resolution the loop state is frozen: once firing `N` has
resolved the promise and cleared the interval, every later state equals
the state at firing `N`. -/
theorem fadeRun_eq_of_ge (startVolume delta : ℝ) (N : ℕ) (h1 : 1 ≤ N) :
    ∀ k, N ≤ k → fadeRun startVolume delta (N : ℤ) k =
      ⟨N + 1, true, fadeWritesUpTo startVolume delta (N : ℤ) N⟩ := by
  intro k
  induction k with
  | zero =>
      intro h
      omega
  | succ k ih =>
      intro hk
      rcases Nat.lt_or_ge k N with h | h
      · have hkN : k + 1 = N := by omega
        have := fadeRun_eq_of_le startVolume delta N h1 (k + 1) (by omega)
        rw [this, hkN]
        have : decide (N = N) = true := by simp
        rw [this]
      · have hrec := ih h
        show fadeStep startVolume delta (N : ℤ) (fadeRun startVolume delta (N : ℤ) k) = _
        rw [hrec]
        simp [fadeStep]

/-- With `ticks = 0` the loop never resolves: the incremented tick can
never equal `ticks + 1 = 1`, so `clearInterval`/`resolve` is unreachable. -/
theorem fadeRun_zero_ticks (startVolume delta : ℝ) :
    ∀ k, (fadeRun startVolume delta 0 k).tick = k + 1 ∧
      (fadeRun startVolume delta 0 k).resolved = false := by
  intro k
  induction k with
  | zero =>
      constructor
      · rfl
      · rfl
  | succ k ih =>
      obtain ⟨ht, hr⟩ := ih
      have hcond : ¬ (((fadeRun startVolume delta 0 k).tick : ℤ) + 1 = (0 : ℤ) + 1) := by
        rw [ht]
        push_cast
        omega
      have hres : ¬ ((fadeRun startVolume delta 0 k).resolved = true) := by
        rw [hr]
        exact Bool.false_ne_true
      have hstep : fadeStep startVolume delta 0 (fadeRun startVolume delta 0 k) =
          ⟨(fadeRun startVolume delta 0 k).tick + 1, false,
            (fadeRun startVolume delta 0 k).writes ++
              [fadeWrite startVolume delta 0 (fadeRun startVolume delta 0 k).tick]⟩ := by
        unfold fadeStep
        rw [if_neg hres, if_neg hcond]
      show (fadeStep startVolume delta 0 (fadeRun startVolume delta 0 k)).tick = k + 1 + 1 ∧
        (fadeStep startVolume delta 0 (fadeRun startVolume delta 0 k)).resolved = false
      rw [hstep]
      constructor
      · show (fadeRun startVolume delta 0 k).tick + 1 = k + 1 + 1
        rw [ht]
      · rfl

/-- Rewriting `fadeWrite` at a natural tick count through the `ℤ → ℝ` cast. -/
theorem fadeWrite_natCast (startVolume delta : ℝ) (N t : ℕ) :
    fadeWrite startVolume delta (N : ℤ) t =
      startVolume + (0.5 - Real.cos (((t : ℝ) / (N : ℝ)) * Real.pi) / 2) * delta := by
  simp [fadeWrite]

/-- The easing argument `(t / N) * π` lies in `(0, π]` for `1 ≤ t ≤ N`. -/
theorem ease_arg_mem (t N : ℕ) (ht : 1 ≤ t) (htN : t ≤ N) :
    0 < ((t : ℝ) / (N : ℝ)) * Real.pi ∧ ((t : ℝ) / (N : ℝ)) * Real.pi ≤ Real.pi := by
  have hN : 0 < (N : ℝ) := by
    have : 0 < N := by omega
    exact_mod_cast this
  have htpos : 0 < (t : ℝ) := by
    have : 0 < t := ht
    exact_mod_cast this
  have hle : (t : ℝ) / (N : ℝ) ≤ 1 := by
    rw [div_le_one hN]
    exact_mod_cast htN
  constructor
  · exact mul_pos (div_pos htpos hN) Real.pi_pos
  · calc ((t : ℝ) / (N : ℝ)) * Real.pi ≤ 1 * Real.pi :=
          mul_le_mul_of_nonneg_right hle Real.pi_pos.le
      _ = Real.pi := one_mul _

/-- On `(0, π]` the cosine of the easing argument is strictly below 1. -/
theorem ease_cos_lt_one (t N : ℕ) (ht : 1 ≤ t) (htN : t ≤ N) :
    Real.cos (((t : ℝ) / (N : ℝ)) * Real.pi) < 1 := by
  obtain ⟨hpos, hle⟩ := ease_arg_mem t N ht htN
  have := Real.cos_lt_cos_of_nonneg_of_le_pi le_rfl hle hpos
  simpa using this

/-- Strictly before the final tick the easing argument is below `π`, so
its cosine is strictly above −1. -/
theorem ease_neg_one_lt_cos (t N : ℕ) (ht : 1 ≤ t) (htN : t < N) :
    -1 < Real.cos (((t : ℝ) / (N : ℝ)) * Real.pi) := by
  have hN : 0 < (N : ℝ) := by
    have : 0 < N := by omega
    exact_mod_cast this
  obtain ⟨hpos, _⟩ := ease_arg_mem t N ht htN.le
  have hlt : ((t : ℝ) / (N : ℝ)) * Real.pi < Real.pi := by
    have hdiv : (t : ℝ) / (N : ℝ) < 1 := by
      rw [div_lt_one hN]
      exact_mod_cast htN
    calc ((t : ℝ) / (N : ℝ)) * Real.pi < 1 * Real.pi :=
          mul_lt_mul_of_pos_right hdiv Real.pi_pos
      _ = Real.pi := one_mul _
  have := Real.cos_lt_cos_of_nonneg_of_le_pi hpos.le le_rfl hlt
  simpa using this

/-- Monotonicity of the easing cosine: a later tick has a smaller (or
equal) cosine, hence a larger (or equal) easing factor. -/
theorem ease_cos_antitone (t1 t2 N : ℕ) (h1 : 1 ≤ t1) (h12 : t1 ≤ t2) (h2 : t2 ≤ N) :
    Real.cos (((t2 : ℝ) / (N : ℝ)) * Real.pi) ≤
      Real.cos (((t1 : ℝ) / (N : ℝ)) * Real.pi) := by
  have hN : 0 < (N : ℝ) := by
    have : 0 < N := by omega
    exact_mod_cast this
  obtain ⟨hpos1, _⟩ := ease_arg_mem t1 N h1 (h12.trans h2)
  obtain ⟨_, hle2⟩ := ease_arg_mem t2 N (h1.trans h12) h2
  have harg : ((t1 : ℝ) / (N : ℝ)) * Real.pi ≤ ((t2 : ℝ) / (N : ℝ)) * Real.pi := by
    have hdiv : (t1 : ℝ) / (N : ℝ) ≤ (t2 : ℝ) / (N : ℝ) := by
      gcongr
    exact mul_le_mul_of_nonneg_right hdiv Real.pi_pos.le
  exact Real.cos_le_cos_of_nonneg_of_le_pi hpos1.le hle2 harg

/-- The final tick writes exactly `startVolume + delta`: at `t = N` the
easing argument is `π` and `cos π = -1`, so the factor is 1. -/
theorem fadeWrite_last (startVolume delta : ℝ) (N : ℕ) (h1 : 1 ≤ N) :
    fadeWrite startVolume delta (N : ℤ) N = startVolume + delta := by
  rw [fadeWrite_natCast]
  have hN : (N : ℝ) ≠ 0 := by
    have : 0 < N := by omega
    positivity
  rw [div_self hN, one_mul, Real.cos_pi]
  ring

/-- Claim C2: for every input outside `[0, 100]`, `setVolume` fails with
the invalid-argument rejection (delivered as a rejected promise value,
never a synchronous throw, since the function is `async`), performs no
volume write — so the primitive's volume field is untouched — and starts
no interval timer. -/
theorem setVolume_rejects_out_of_range
    (currentVolume newVolume fadeMs intervalMs : ℚ)
    (h : newVolume < 0 ∨ 100 < newVolume) :
    setVolume currentVolume newVolume fadeMs intervalMs =
      .rejected "New volume is outside of allowed range (0-100)" ∧
    (∀ k, setVolumeWrites (setVolume currentVolume newVolume fadeMs intervalMs) k = []) ∧
    startsTimer (setVolume currentVolume newVolume fadeMs intervalMs) = false := by
  have hsv : setVolume currentVolume newVolume fadeMs intervalMs =
      .rejected "New volume is outside of allowed range (0-100)" := by
    simp only [setVolume]
    rw [if_pos h]
  refine ⟨hsv, ?_, ?_⟩
  · intro k
    rw [hsv]
    rfl
  · rw [hsv]
    rfl

/-- Witness for C2 at volume percent 150 with current volume 1/2. -/
theorem setVolume_rejects_out_of_range_witness :
    setVolume (1/2) 150 1500 13 =
      .rejected "New volume is outside of allowed range (0-100)" ∧
    setVolumeWrites (setVolume (1/2) 150 1500 13) 5 = [] ∧
    startsTimer (setVolume (1/2) 150 1500 13) = false := by
  have h := setVolume_rejects_out_of_range (1/2) 150 1500 13 (Or.inr (by norm_num))
  exact ⟨h.1, h.2.1 5, h.2.2⟩

/-- Claim C3: for in-range volume, when the normalized target equals the
current volume, or the fade duration is 0, or the tick interval is 0,
`setVolume` resolves immediately with exactly one volume write equal to
the normalized target, and no timer is started. -/
theorem setVolume_short_circuit
    (currentVolume newVolume fadeMs intervalMs : ℚ)
    (hlo : 0 ≤ newVolume) (hhi : newVolume ≤ 100)
    (h : newVolume / 100 = currentVolume ∨ fadeMs = 0 ∨ intervalMs = 0) :
    setVolume currentVolume newVolume fadeMs intervalMs = .immediate (newVolume / 100) ∧
    (∀ k, setVolumeWrites (setVolume currentVolume newVolume fadeMs intervalMs) k =
      [(newVolume : ℝ) / 100]) ∧
    startsTimer (setVolume currentVolume newVolume fadeMs intervalMs) = false := by
  have hrange : ¬ (newVolume < 0 ∨ 100 < newVolume) := by
    push_neg
    exact ⟨hlo, hhi⟩
  have hguard : newVolume / 100 - currentVolume = 0 ∨ fadeMs = 0 ∨ intervalMs = 0 := by
    rcases h with h | h
    · exact Or.inl (sub_eq_zero.mpr h)
    · exact Or.inr h
  have hsv : setVolume currentVolume newVolume fadeMs intervalMs =
      .immediate (newVolume / 100) := by
    simp only [setVolume]
    rw [if_neg hrange, if_pos hguard]
  refine ⟨hsv, ?_, ?_⟩
  · intro k
    rw [hsv]
    show [((newVolume / 100 : ℚ) : ℝ)] = [(newVolume : ℝ) / 100]
    push_cast
    rfl
  · rw [hsv]
    rfl

/-- Witness for C3 with a nonzero delta but a zero fade duration. -/
theorem setVolume_short_circuit_witness :
    setVolume 0 50 0 13 = .immediate (50 / 100) ∧
    setVolumeWrites (setVolume 0 50 0 13) 3 = [(50 : ℝ) / 100] ∧
    startsTimer (setVolume 0 50 0 13) = false := by
  have h := setVolume_short_circuit 0 50 0 13 (by norm_num) (by norm_num)
    (Or.inr (Or.inl rfl))
  exact ⟨h.1, h.2.1 3, h.2.2⟩

/-- Claim C4 (refuted by the code): with volume 50 requested from current
volume 0, `fadeMs = 5` and `intervalMs = 13`, the guards pass and a fade
starts with `ticks = ⌊5 / 13⌋ = 0`; the interval callback's termination
test `++tick === ticks + 1` then requires the incremented tick — always
at least 2 — to equal 1, so `clearInterval`/`resolve` is unreachable and
the promise never resolves, contradicting the claim (and the function's
own documentation) that the operation always resolves. -/
theorem setVolume_zero_ticks_never_resolves :
    setVolume 0 50 5 13 = .fade 0 (1/2) 0 ∧
    ∀ k, (fadeRun 0 (1/2) 0 k).resolved = false := by
  constructor
  · have hfloor : ⌊(5 : ℚ) / 13⌋ = 0 := by
      rw [Int.floor_eq_zero_iff]
      constructor
      · norm_num
      · norm_num
    simp only [setVolume]
    norm_num [hfloor]
  · intro k
    exact (fadeRun_zero_ticks 0 (1/2) k).2

/-- JS index assignment never shortens an array. -/
theorem setExtend_length {H : Type} (l : List (Option H)) (i : ℕ) (v : Option H) :
    l.length ≤ (setExtend l i v).length := by
  unfold setExtend
  by_cases h : i < l.length
  · rw [if_pos h]
    simp
  · rw [if_neg h]
    simp

/-- Nulling a slot that already holds `none` leaves the array unchanged. -/
theorem setExtend_tombstone {H : Type} (l : List (Option H)) (i : ℕ)
    (hi : i < l.length) (h : l.getD i none = none) :
    setExtend l i none = l := by
  unfold setExtend
  rw [if_pos hi]
  apply List.ext_getElem
  · simp
  · intro n h1 h2
    rw [List.getElem_set]
    split
    · rename_i heq
      subst heq
      rw [← List.getD_eq_getElem l none h2]
      exact h.symm
    · rfl

/-- Nulling any slot (in range or extending) preserves existing tombstones. -/
theorem setExtend_getD_none {H : Type} (l : List (Option H)) (i k : ℕ)
    (hk : k < l.length) (h : l.getD k none = none) :
    (setExtend l i none).getD k none = none := by
  unfold setExtend
  by_cases hi : i < l.length
  · rw [if_pos hi]
    have hlen : k < (l.set i none).length := by simpa using hk
    rw [List.getD_eq_getElem _ _ hlen, List.getElem_set]
    split
    · rfl
    · rw [← List.getD_eq_getElem l none hk]
      exact h
  · rw [if_neg hi, List.append_assoc, List.getD_append _ _ _ _ hk]
    exact h

/-- Claim C5: `on` appends the handler to the event's sequence (an absent
event reads as the empty sequence), leaves every other event's sequence
untouched, forwards one `addEventListener` call with the pushed handler,
and returns the length of the event's sequence immediately before the
append. -/
theorem onListener_returns_prior_index {H : Type} (reg : Registry H)
    (event : String) (handler : H) :
    (onListener reg event handler).2.2 = (reg event).length ∧
    (onListener reg event handler).1 event = reg event ++ [some handler] ∧
    (∀ e, e ≠ event → (onListener reg event handler).1 e = reg e) ∧
    (onListener reg event handler).2.1 = [.add event handler] := by
  refine ⟨?_, ?_, ?_, rfl⟩
  · show (reg event ++ [some handler]).length - 1 = (reg event).length
    simp
  · show Function.update reg event (reg event ++ [some handler]) event = _
    rw [Function.update_same]
  · intro e he
    show Function.update reg event (reg event ++ [some handler]) e = reg e
    rw [Function.update_noteq he]

/-- Witness for C5: on an empty registry the first registration for
`ended` returns 0, and after an intervening registration on `play` the
second registration for `ended` returns 1. -/
theorem onListener_returns_prior_index_witness :
    (onListener (fun _ => ([] : List (Option ℕ))) "ended" 7).2.2 = 0 ∧
    (onListener
      (onListener ((onListener (fun _ => ([] : List (Option ℕ))) "ended" 7).1)
        "play" 8).1 "ended" 9).2.2 = 1 := by
  constructor
  · have h := onListener_returns_prior_index (fun _ => ([] : List (Option ℕ))) "ended" 7
    rw [h.1]
    rfl
  · have h := onListener_returns_prior_index
      (onListener ((onListener (fun _ => ([] : List (Option ℕ))) "ended" 7).1)
        "play" 8).1 "ended" 9
    rw [h.1]
    decide

/-- Unfolding of `off` with a handle when the event's sequence is
non-empty: one `removeEventListener` with whatever the slot holds, and
the slot (JS assignment semantics) nulled. -/
theorem off_some_eq {H : Type} (reg : Registry H) (event : String) (i : ℕ)
    (h : ¬ ((reg event).length = 0)) :
    off reg event (some i) =
      (Function.update reg event (setExtend (reg event) i none),
       [.remove event ((reg event).getD i none)]) := by
  simp only [off]
  rw [if_neg h]

/-- Unfolding of `off` without a handle when the event's sequence is
non-empty: every slot is nulled and one `removeEventListener` per entry
is forwarded, in sequence order. -/
theorem off_none_eq {H : Type} (reg : Registry H) (event : String)
    (h : ¬ ((reg event).length = 0)) :
    off reg event none =
      (Function.update reg event ((reg event).map (fun _ => none)),
       (reg event).map (fun entry => .remove event entry)) := by
  simp only [off]
  rw [if_neg h]

/-- Counterexample to C6 as stated: `off` with the out-of-range handle 5
on an event whose sequence is `[some 0]` is not a registry no-op — the JS
assignment `eventHandlers[5] = null` extends the array to length 6, so
the stored sequence changes (and the next `on` would return 6, not 1). -/
theorem off_out_of_range_changes_state :
    (off (fun e => if e = "ended" then [some (0 : ℕ)] else []) "ended" (some 5)).1
        "ended" ≠ [some (0 : ℕ)] := by
  decide

/-- Claim C6 (amended): `off` on an event with no (or an empty) sequence
is a complete no-op; `off` with an in-range but already-tombstoned handle
leaves the registry unchanged and forwards no effective removal to the
primitive; `off` with an out-of-range handle forwards no effective
removal and leaves other events unchanged, but extends the event's
sequence with tombstones to length `handle + 1` (it never throws: the
model is a total function). -/
theorem off_stale_handle_noop {H : Type} (reg : Registry H) (event : String) :
    ((reg event).length = 0 → ∀ hIdx, off reg event hIdx = (reg, [])) ∧
    (∀ i, i < (reg event).length → (reg event).getD i none = none →
      (off reg event (some i)).1 = reg ∧
      ∀ a ∈ (off reg event (some i)).2, a.effective = false) ∧
    (∀ i, (reg event).length ≤ i → (reg event).length ≠ 0 →
      (off reg event (some i)).1 event =
        reg event ++ List.replicate (i - (reg event).length) none ++ [none] ∧
      (∀ e, e ≠ event → (off reg event (some i)).1 e = reg e) ∧
      ∀ a ∈ (off reg event (some i)).2, a.effective = false) := by
  refine ⟨?_, ?_, ?_⟩
  · intro h0 hIdx
    simp only [off]
    rw [if_pos h0]
  · intro i hi hd
    have hne0 : ¬ ((reg event).length = 0) := by omega
    rw [off_some_eq reg event i hne0]
    constructor
    · show Function.update reg event (setExtend (reg event) i none) = reg
      rw [setExtend_tombstone (reg event) i hi hd]
      exact Function.update_eq_self event reg
    · intro a ha
      have : a = .remove event ((reg event).getD i none) := by
        simpa using ha
      rw [this, hd]
      rfl
  · intro i hge hne0
    have hni : ¬ (i < (reg event).length) := by omega
    rw [off_some_eq reg event i hne0]
    refine ⟨?_, ?_, ?_⟩
    · show Function.update reg event (setExtend (reg event) i none) event = _
      rw [Function.update_same]
      unfold setExtend
      rw [if_neg hni]
    · intro e he
      show Function.update reg event (setExtend (reg event) i none) e = reg e
      rw [Function.update_noteq he]
    · intro a ha
      have : a = .remove event ((reg event).getD i none) := by
        simpa using ha
      rw [this, List.getD_eq_default _ _ hge]
      rfl

/-- Witness for C6: an empty-sequence `off` is a no-op, a tombstoned
handle leaves the registry unchanged with no effective removal, and an
out-of-range handle extends the sequence with tombstones. -/
theorem off_stale_handle_noop_witness :
    off (fun e => if e = "play" then ([] : List (Option ℕ)) else [none])
        "play" (some 0) =
      ((fun e => if e = "play" then ([] : List (Option ℕ)) else [none]), []) ∧
    (off (fun e => if e = "ended" then [none] else ([] : List (Option ℕ)))
        "ended" (some 0)).1 =
      (fun e => if e = "ended" then [none] else ([] : List (Option ℕ))) ∧
    (off (fun e => if e = "ended" then [some (3 : ℕ)] else [])
        "ended" (some 5)).1 "ended" =
      [some (3 : ℕ)] ++ List.replicate 4 none ++ [none] := by
  refine ⟨?_, ?_, ?_⟩
  · exact (off_stale_handle_noop
      (fun e => if e = "play" then ([] : List (Option ℕ)) else [none]) "play").1
      (by decide) (some 0)
  · exact ((off_stale_handle_noop
      (fun e => if e = "ended" then [none] else ([] : List (Option ℕ))) "ended").2.1
      0 (by decide) (by decide)).1
  · exact ((off_stale_handle_noop
      (fun e => if e = "ended" then [some (3 : ℕ)] else []) "ended").2.2
      5 (by decide) (by decide)).1

/-- Claim C7: `off` without a handle on a non-empty sequence tombstones
every slot in sequence order (the stored sequence becomes all-`none`,
with its length — hence every index — preserved), leaves other events
untouched, and forwards one `removeEventListener` per entry carrying
that entry's handler (an effective unregistration exactly for the live
entries, in sequence order). -/
theorem off_all_tombstones {H : Type} (reg : Registry H) (event : String)
    (h : (reg event).length ≠ 0) :
    (off reg event none).1 event = (reg event).map (fun _ => none) ∧
    ((off reg event none).1 event).length = (reg event).length ∧
    (∀ i, ((off reg event none).1 event).getD i none = none) ∧
    (∀ e, e ≠ event → (off reg event none).1 e = reg e) ∧
    (off reg event none).2 = (reg event).map (fun entry => .remove event entry) := by
  rw [off_none_eq reg event h]
  have h1 : Function.update reg event ((reg event).map (fun _ => none)) event =
      (reg event).map (fun _ => (none : Option H)) := Function.update_same _ _ _
  refine ⟨h1, ?_, ?_, ?_, rfl⟩
  · simp only [h1]
    simp
  · intro i
    simp only [h1]
    by_cases hi : i < (reg event).length
    · have hlen : i < ((reg event).map (fun _ => (none : Option H))).length := by
        simpa using hi
      rw [List.getD_eq_getElem _ _ hlen, List.getElem_map]
    · exact List.getD_eq_default _ _ (by simpa using Nat.le_of_not_lt hi)
  · intro e he
    exact Function.update_noteq he _ _

/-- Witness for C7 on `ended ↦ [some 1, none, some 2]`: afterwards the
sequence is all tombstones of the same length, and one
`removeEventListener` per entry was forwarded in order. -/
theorem off_all_tombstones_witness :
    (off (fun e => if e = "ended" then [some (1 : ℕ), none, some 2] else [])
        "ended" none).1 "ended" = [none, none, none] ∧
    (off (fun e => if e = "ended" then [some (1 : ℕ), none, some 2] else [])
        "ended" none).2 =
      [.remove "ended" (some 1), .remove "ended" none, .remove "ended" (some 2)] := by
  have h := off_all_tombstones
    (fun e => if e = "ended" then [some (1 : ℕ), none, some 2] else []) "ended"
    (by decide)
  constructor
  · rw [h.1]
    rfl
  · rw [h.2.2.2.2]
    rfl

/-- A single registry operation never shortens an event's sequence. -/
theorem applyRegOp_length_le {H : Type} (reg : Registry H) (op : RegOp H)
    (event : String) :
    (reg event).length ≤ ((applyRegOp reg op) event).length := by
  cases op with
  | onOp e handler =>
      show (reg event).length ≤
        (Function.update reg e (reg e ++ [some handler]) event).length
      by_cases he : event = e
      · subst he
        rw [Function.update_same]
        simp
      · rw [Function.update_noteq he]
  | offOp e hIdx =>
      show (reg event).length ≤ ((off reg e hIdx).1 event).length
      by_cases h0 : (reg e).length = 0
      · simp only [off]
        rw [if_pos h0]
      · cases hIdx with
        | some i =>
            rw [off_some_eq reg e i h0]
            by_cases he : event = e
            · subst he
              show (reg event).length ≤
                (Function.update reg event (setExtend (reg event) i none) event).length
              rw [Function.update_same]
              exact setExtend_length _ _ _
            · show (reg event).length ≤
                (Function.update reg e (setExtend (reg e) i none) event).length
              rw [Function.update_noteq he]
        | none =>
            rw [off_none_eq reg e h0]
            by_cases he : event = e
            · subst he
              show (reg event).length ≤
                (Function.update reg event ((reg event).map (fun _ => none)) event).length
              rw [Function.update_same]
              simp
            · show (reg event).length ≤
                (Function.update reg e ((reg e).map (fun _ => none)) event).length
              rw [Function.update_noteq he]

/-- A single registry operation preserves tombstones: every write a
registry operation performs into an existing slot writes `none`. -/
theorem applyRegOp_tombstone {H : Type} (reg : Registry H) (op : RegOp H)
    (event : String) (i : ℕ) (hi : i < (reg event).length)
    (hd : (reg event).getD i none = none) :
    ((applyRegOp reg op) event).getD i none = none := by
  cases op with
  | onOp e handler =>
      show (Function.update reg e (reg e ++ [some handler]) event).getD i none = none
      by_cases he : event = e
      · subst he
        rw [Function.update_same, List.getD_append _ _ _ _ hi]
        exact hd
      · rw [Function.update_noteq he]
        exact hd
  | offOp e hIdx =>
      show ((off reg e hIdx).1 event).getD i none = none
      by_cases h0 : (reg e).length = 0
      · simp only [off]
        rw [if_pos h0]
        exact hd
      · cases hIdx with
        | some j =>
            rw [off_some_eq reg e j h0]
            by_cases he : event = e
            · subst he
              show ((Function.update reg event
                (setExtend (reg event) j none)) event).getD i none = none
              rw [Function.update_same]
              exact setExtend_getD_none _ _ _ hi hd
            · show ((Function.update reg e
                (setExtend (reg e) j none)) event).getD i none = none
              rw [Function.update_noteq he]
              exact hd
        | none =>
            rw [off_none_eq reg e h0]
            by_cases he : event = e
            · subst he
              show ((Function.update reg event
                ((reg event).map (fun _ => none))) event).getD i none = none
              rw [Function.update_same]
              have hlen : i < ((reg event).map (fun _ => (none : Option H))).length := by
                simpa using hi
              rw [List.getD_eq_getElem _ _ hlen, List.getElem_map]
            · show ((Function.update reg e
                ((reg e).map (fun _ => none))) event).getD i none = none
              rw [Function.update_noteq he]
              exact hd

/-- Monotonicity of the registry along any finite operation sequence. -/
theorem runRegOps_mono {H : Type} (reg : Registry H) (ops : List (RegOp H))
    (event : String) :
    (reg event).length ≤ ((runRegOps reg ops) event).length ∧
    (∀ i, i < (reg event).length → (reg event).getD i none = none →
      ((runRegOps reg ops) event).getD i none = none) := by
  induction ops generalizing reg with
  | nil => exact ⟨le_rfl, fun _ _ hd => hd⟩
  | cons op ops ih =>
      have h1 := applyRegOp_length_le reg op event
      have h3 := ih (applyRegOp reg op)
      refine ⟨le_trans h1 h3.1, ?_⟩
      intro i hi hd
      exact h3.2 i (lt_of_lt_of_le hi h1) (applyRegOp_tombstone reg op event i hi hd)

/-- Claim C8: along every finite sequence of `on`/`off` operations an
event's sequence length never shrinks, a tombstoned slot stays a
tombstone at the same index, and handles are never reused — any handle
`k` already issued for the event (so `k < ` the sequence length) is
strictly smaller than the handle a subsequent `on` returns, whatever
operations (including `off event k`) happened in between. -/
theorem registry_handles_never_reused {H : Type} (reg : Registry H)
    (ops : List (RegOp H)) (event : String) :
    (reg event).length ≤ ((runRegOps reg ops) event).length ∧
    (∀ i, i < (reg event).length → (reg event).getD i none = none →
      ((runRegOps reg ops) event).getD i none = none) ∧
    (∀ k, k < (reg event).length → ∀ handler,
      k < (onListener (runRegOps reg ops) event handler).2.2) := by
  obtain ⟨hlen, htomb⟩ := runRegOps_mono reg ops event
  refine ⟨hlen, htomb, ?_⟩
  intro k hk handler
  have hret : (onListener (runRegOps reg ops) event handler).2.2 =
      ((runRegOps reg ops) event).length := by
    show (((runRegOps reg ops) event) ++ [some handler]).length - 1 = _
    simp
  rw [hret]
  omega

/-- Witness for C8: after `on ended` returned handle 0 and
`off ended 0` ran, the next `on ended` returns a handle above 0. -/
theorem registry_handles_never_reused_witness :
    (0 : ℕ) <
      (onListener
        (runRegOps (fun e => if e = "ended" then [some (1 : ℕ)] else [])
          [RegOp.offOp "ended" (some 0)]) "ended" 2).2.2 := by
  have h := registry_handles_never_reused
    (fun e => if e = "ended" then [some (1 : ℕ)] else [])
    [RegOp.offOp "ended" (some 0)] "ended"
  exact h.2.2 0 (by decide) 2

/-- Claim C9: the `src` setter first starts a 1500 ms fade to volume 0
and awaits it; only then does it read whether playback is active, assign
the new source, call `play()` exactly when playback was active, and
start the 1500 ms fade back to volume 100 — which is the last step of
the trace, with no await after it (fire-and-forget): the only awaited
completion in the whole trace is the first fade's. -/
theorem setSrc_trace (url : String) (isPlaying : Bool) :
    (setSrc url isPlaying).take 4 =
      [.fadeStart 0 1500 13, .awaitCompletion, .readIsPlaying, .setSource url] ∧
    (setSrc url isPlaying).getLast? = some (.fadeStart 100 1500 13) ∧
    (SrcStep.play ∈ setSrc url isPlaying ↔ isPlaying = true) ∧
    (setSrc url isPlaying).count .awaitCompletion = 1 := by
  cases isPlaying with
  | false =>
      refine ⟨rfl, rfl, ?_, ?_⟩
      · simp [setSrc]
      · simp [setSrc, List.count_cons]
  | true =>
      refine ⟨rfl, rfl, ?_, ?_⟩
      · simp [setSrc]
      · simp [setSrc, List.count_cons]

/-- Counterexample to C1 as stated: with `fadeMs = intervalMs = 13` the
fade from volume 0 to 100 has `N = ⌊13 / 13⌋ = 1` tick, and the single
write — which is both the first and the final one — is the target 1
itself (`cos π = -1` makes the easing factor 1), so the first write is
not strictly between the start volume and the target. -/
theorem first_write_not_strictly_between :
    setVolume 0 100 13 13 = .fade 0 1 1 ∧
    (fadeRun 0 1 ((1 : ℕ) : ℤ) 1).writes = [1] ∧
    ¬ strictlyBetween 0 1 1 := by
  refine ⟨?_, ?_, ?_⟩
  · have hfloor : ⌊(13 : ℚ) / 13⌋ = 1 := by norm_num
    simp only [setVolume]
    norm_num [hfloor]
  · have h := fadeRun_eq_of_le 0 1 1 le_rfl 1 le_rfl
    rw [h]
    show fadeWritesUpTo 0 1 ((1 : ℕ) : ℤ) 1 = [1]
    have hw : fadeWrite 0 1 (1 : ℤ) 1 = 1 := by
      have h0 := fadeWrite_last 0 1 1 le_rfl
      norm_num at h0 ⊢
      exact h0
    simp [fadeWritesUpTo, List.range_succ, hw]
  · intro hb
    rcases hb with ⟨_, hb⟩ | ⟨hb, _⟩ <;> exact lt_irrefl 1 hb

/-- Claim C1 (amended): for an in-range target differing from the current
volume, nonzero duration and interval, and `N = ⌊fadeMs / intervalMs⌋ ≥ 1`,
`setVolume` starts a fade whose timer resolves exactly at firing `N`
having performed exactly `N` volume writes; the write at tick `t` is
`startVolume + delta * (0.5 - cos(π t / N) / 2)`, the final write is the
normalized target, and — amended: only when `N ≥ 2` — the first write is
strictly between the start volume and the target (when `N = 1` the
single write equals the target). -/
theorem setVolume_fade_profile
    (currentVolume newVolume fadeMs intervalMs : ℚ) (N : ℕ)
    (hlo : 0 ≤ newVolume) (hhi : newVolume ≤ 100)
    (hne : newVolume / 100 ≠ currentVolume)
    (hf : fadeMs ≠ 0) (hi : intervalMs ≠ 0)
    (hN : ⌊fadeMs / intervalMs⌋ = (N : ℤ)) (h1 : 1 ≤ N) :
    setVolume currentVolume newVolume fadeMs intervalMs =
      .fade currentVolume (newVolume / 100 - currentVolume) (N : ℤ) ∧
    (∀ k, N ≤ k →
      fadeRun (currentVolume : ℝ) ((newVolume : ℝ) / 100 - (currentVolume : ℝ))
          (N : ℤ) k =
        ⟨N + 1, true,
          fadeWritesUpTo (currentVolume : ℝ)
            ((newVolume : ℝ) / 100 - (currentVolume : ℝ)) (N : ℤ) N⟩) ∧
    (fadeWritesUpTo (currentVolume : ℝ) ((newVolume : ℝ) / 100 - (currentVolume : ℝ))
        (N : ℤ) N).length = N ∧
    (∀ t, 1 ≤ t → t ≤ N →
      (fadeWritesUpTo (currentVolume : ℝ)
          ((newVolume : ℝ) / 100 - (currentVolume : ℝ)) (N : ℤ) N).getD (t - 1) 0 =
        (currentVolume : ℝ) + ((newVolume : ℝ) / 100 - (currentVolume : ℝ)) *
          (0.5 - Real.cos (Real.pi * t / N) / 2)) ∧
    (fadeWritesUpTo (currentVolume : ℝ) ((newVolume : ℝ) / 100 - (currentVolume : ℝ))
        (N : ℤ) N).getLast? = some ((newVolume : ℝ) / 100) ∧
    (2 ≤ N →
      strictlyBetween (currentVolume : ℝ) ((newVolume : ℝ) / 100)
        (fadeWrite (currentVolume : ℝ)
          ((newVolume : ℝ) / 100 - (currentVolume : ℝ)) (N : ℤ) 1)) := by
  refine ⟨?_, ?_, ?_, ?_, ?_, ?_⟩
  · have hrange : ¬ (newVolume < 0 ∨ 100 < newVolume) := by
      push_neg
      exact ⟨hlo, hhi⟩
    have hguard : ¬ (newVolume / 100 - currentVolume = 0 ∨ fadeMs = 0 ∨ intervalMs = 0) := by
      push_neg
      exact ⟨sub_ne_zero.mpr hne, hf, hi⟩
    simp only [setVolume]
    rw [if_neg hrange, if_neg hguard, hN]
  · intro k hk
    exact fadeRun_eq_of_ge _ _ N h1 k hk
  · simp [fadeWritesUpTo]
  · intro t ht htN
    simp only [fadeWritesUpTo]
    have hlen : t - 1 < ((List.range N).map
        (fun i => fadeWrite (currentVolume : ℝ)
          ((newVolume : ℝ) / 100 - (currentVolume : ℝ)) (N : ℤ) (i + 1))).length := by
      simp
      omega
    rw [List.getD_eq_getElem _ _ hlen, List.getElem_map, List.getElem_range]
    rw [show t - 1 + 1 = t by omega, fadeWrite_natCast]
    rw [show ((t : ℝ) / (N : ℝ)) * Real.pi = Real.pi * t / N by ring]
    ring
  · obtain ⟨M, hM⟩ : ∃ M, N = M + 1 := ⟨N - 1, by omega⟩
    subst hM
    rw [fadeWritesUpTo_succ, List.getLast?_concat,
      fadeWrite_last _ _ (M + 1) (by omega)]
    congr 1
    ring
  · intro h2
    have hδq : (newVolume / 100 - currentVolume : ℚ) ≠ 0 := sub_ne_zero.mpr hne
    have hδ : (newVolume : ℝ) / 100 - (currentVolume : ℝ) ≠ 0 := by
      have : ((newVolume / 100 - currentVolume : ℚ) : ℝ) ≠ 0 := by
        exact_mod_cast hδq
      push_cast at this
      convert this using 2
    rw [fadeWrite_natCast]
    have hc1 : Real.cos ((((1 : ℕ) : ℝ) / (N : ℝ)) * Real.pi) < 1 :=
      ease_cos_lt_one 1 N le_rfl (by omega)
    have hc2 : -1 < Real.cos ((((1 : ℕ) : ℝ) / (N : ℝ)) * Real.pi) :=
      ease_neg_one_lt_cos 1 N le_rfl (by omega)
    set c := Real.cos ((((1 : ℕ) : ℝ) / (N : ℝ)) * Real.pi)
    have hf0 : 0 < 0.5 - c / 2 := by linarith
    have hf1 : 0.5 - c / 2 < 1 := by linarith
    have hsne : (currentVolume : ℝ) ≠ (newVolume : ℝ) / 100 := by
      intro h
      apply hδ
      rw [← h]
      ring
    rcases hsne.lt_or_lt with hlt | hlt
    · left
      constructor
      · nlinarith [mul_pos hf0 (sub_pos.mpr hlt)]
      · nlinarith [mul_lt_mul_of_pos_right hf1 (sub_pos.mpr hlt)]
    · right
      constructor
      · nlinarith [mul_lt_mul_of_pos_right hf1 (sub_pos.mpr hlt)]
      · nlinarith [mul_pos hf0 (sub_pos.mpr hlt)]

/-- Witness for C1 at a fade from volume 0 to 100 with `N = 2` ticks. -/
theorem setVolume_fade_profile_witness :
    setVolume 0 100 26 13 = .fade 0 1 ((2 : ℕ) : ℤ) ∧
    (fadeRun 0 1 ((2 : ℕ) : ℤ) 2).resolved = true ∧
    (fadeWritesUpTo 0 1 ((2 : ℕ) : ℤ) 2).length = 2 ∧
    (fadeWritesUpTo 0 1 ((2 : ℕ) : ℤ) 2).getLast? = some 1 ∧
    strictlyBetween 0 1 (fadeWrite 0 1 ((2 : ℕ) : ℤ) 1) := by
  have h := setVolume_fade_profile 0 100 26 13 2 (by norm_num) (by norm_num)
    (by norm_num) (by norm_num) (by norm_num) (by norm_num) (by norm_num)
  have e1 : ((0 : ℚ) : ℝ) = 0 := by norm_num
  have e2 : ((100 : ℚ) : ℝ) = 100 := by norm_num
  rw [e1, e2] at h
  have e3 : (100 : ℝ) / 100 - 0 = 1 := by norm_num
  rw [e3] at h
  have e4 : (100 : ℝ) / 100 = 1 := by norm_num
  rw [e4] at h
  have e5 : ((100 : ℚ) / 100 - 0 : ℚ) = 1 := by norm_num
  refine ⟨?_, ?_, h.2.2.1, h.2.2.2.2.1, h.2.2.2.2.2 le_rfl⟩
  · rw [h.1, e5]
  · rw [h.2.1 2 le_rfl]

/-- Claim C10: for a fade with `N ≥ 1` ticks and distinct start and
target, the tick-indexed write values are monotone from the start volume
toward the target (non-decreasing for an upward fade, non-increasing for
a downward one, because the easing factor `0.5 - cos(π t / N) / 2`
increases in `t`), and every write over ticks `1..N` lies in the closed
interval between the start volume and the target. -/
theorem fadeWrite_monotone_bounded
    (startVolume targetVolume : ℝ) (N : ℕ) (hN : 1 ≤ N)
    (hne : startVolume ≠ targetVolume) (t1 t2 : ℕ)
    (h1 : 1 ≤ t1) (h12 : t1 ≤ t2) (h2 : t2 ≤ N) :
    (startVolume < targetVolume →
      fadeWrite startVolume (targetVolume - startVolume) (N : ℤ) t1 ≤
        fadeWrite startVolume (targetVolume - startVolume) (N : ℤ) t2) ∧
    (targetVolume < startVolume →
      fadeWrite startVolume (targetVolume - startVolume) (N : ℤ) t2 ≤
        fadeWrite startVolume (targetVolume - startVolume) (N : ℤ) t1) ∧
    min startVolume targetVolume ≤
      fadeWrite startVolume (targetVolume - startVolume) (N : ℤ) t1 ∧
    fadeWrite startVolume (targetVolume - startVolume) (N : ℤ) t1 ≤
      max startVolume targetVolume := by
  rw [fadeWrite_natCast, fadeWrite_natCast]
  have hanti : Real.cos (((t2 : ℝ) / (N : ℝ)) * Real.pi) ≤
      Real.cos (((t1 : ℝ) / (N : ℝ)) * Real.pi) :=
    ease_cos_antitone t1 t2 N h1 h12 h2
  set c1 := Real.cos (((t1 : ℝ) / (N : ℝ)) * Real.pi)
  set c2 := Real.cos (((t2 : ℝ) / (N : ℝ)) * Real.pi)
  have hb1 : -1 ≤ c1 := Real.neg_one_le_cos _
  have hb2 : c1 ≤ 1 := Real.cos_le_one _
  have hb3 : -1 ≤ c2 := Real.neg_one_le_cos _
  have hb4 : c2 ≤ 1 := Real.cos_le_one _
  refine ⟨?_, ?_, ?_, ?_⟩
  · intro hlt
    nlinarith [mul_nonneg (sub_nonneg.mpr hanti) (sub_nonneg.mpr hlt.le)]
  · intro hlt
    nlinarith [mul_nonneg (sub_nonneg.mpr hanti) (sub_nonneg.mpr hlt.le)]
  · rcases le_or_lt startVolume targetVolume with hle | hlt
    · rw [min_eq_left hle]
      nlinarith [mul_nonneg (by linarith : (0 : ℝ) ≤ 0.5 - c1 / 2)
        (sub_nonneg.mpr hle)]
    · rw [min_eq_right hlt.le]
      nlinarith [mul_nonneg (by linarith : (0 : ℝ) ≤ 0.5 + c1 / 2)
        (sub_nonneg.mpr hlt.le)]
  · rcases le_or_lt startVolume targetVolume with hle | hlt
    · rw [max_eq_right hle]
      nlinarith [mul_nonneg (by linarith : (0 : ℝ) ≤ 0.5 + c1 / 2)
        (sub_nonneg.mpr hle)]
    · rw [max_eq_left hlt.le]
      nlinarith [mul_nonneg (by linarith : (0 : ℝ) ≤ 0.5 - c1 / 2)
        (sub_nonneg.mpr hlt.le)]

/-- Witness for C10 on the upward fade from 0 to 1 with `N = 2`,
comparing ticks 1 and 2. -/
theorem fadeWrite_monotone_bounded_witness :
    fadeWrite (0 : ℝ) ((1 : ℝ) - 0) ((2 : ℕ) : ℤ) 1 ≤
      fadeWrite (0 : ℝ) ((1 : ℝ) - 0) ((2 : ℕ) : ℤ) 2 ∧
    min (0 : ℝ) 1 ≤ fadeWrite (0 : ℝ) ((1 : ℝ) - 0) ((2 : ℕ) : ℤ) 1 ∧
    fadeWrite (0 : ℝ) ((1 : ℝ) - 0) ((2 : ℕ) : ℤ) 1 ≤ max (0 : ℝ) 1 := by
  have h := fadeWrite_monotone_bounded 0 1 2 (by norm_num) (by norm_num) 1 2
    (by norm_num) (by norm_num) (by norm_num)
  exact ⟨h.1 (by norm_num), h.2.2.1, h.2.2.2⟩

end NebulaAudio
